import Mathlib

/-!
Verification of the `zime` reference-management tool (Rust) against its
natural-language specification, via a shallow embedding in Lean 4.

Source files embedded:
- `crates/zime/src/main.rs` — `Setup::sync_git`, `Setup::determine_from`,
  `path_safe_doi`, and the per-entry body of the `Command::Pdfs` batch loop;
- `crates/zime/src/remotes/arxiv.rs` — `is_arxiv`, `fetch_pdf`;
- `crates/zime/src/remotes/scihub.rs` — `fetch_pdf`.

Effectful Rust code (subprocess `git` calls, HTTP requests, filesystem
writes) is embedded as pure Lean functions over an explicit environment
describing the outcome of each external interaction, returning a trace of
the side effects the code performs, in order, together with the result.
Rust `&str` values are modelled as `List Char` (or Lean `String` where no
character-level reasoning is needed); PDF byte vectors as `List Nat`.
-/

namespace Zime

/-! ## String primitives

Embeddings of the Rust standard-library string operations the sources use:
`str::contains`, `str::replace`, `str::split_once`, and `str::split`
(materialized as the full list of pieces; the code only ever takes `nth(1)`
and `next()` of the iterator).  All operate on `List Char`.  The `split`
and `replace` embeddings require a nonempty pattern — every pattern
occurring in the sources (`"/"`, `"/ARXIV."`, `"src=\""`, `"\""`) is a
nonempty literal — and scan left to right, consuming non-overlapping
matches, exactly as the Rust originals do. -/

/-- Rust `str::contains(pat)`: `pat` occurs as a contiguous substring of
`s` (also true for `pat = []`, as in Rust). -/
def containsSub : List Char → List Char → Bool
  | [], pat => pat.isPrefixOf []
  | s@(_ :: cs), pat => pat.isPrefixOf s || containsSub cs pat

/-- Rust `str::replace(pat, rep)` for a nonempty pattern: scan left to
right; at each position, if `pat` is a prefix of the rest, emit `rep` and
skip the matched characters, otherwise copy one character.  (For an empty
pattern this embedding copies `s`; the sources only ever replace the
nonempty pattern `"/"`.) -/
def strReplace (s pat rep : List Char) : List Char :=
  if h : pat ≠ [] ∧ pat.isPrefixOf s then
    rep ++ strReplace (s.drop pat.length) pat rep
  else
    match s with
    | [] => []
    | c :: cs => c :: strReplace cs pat rep
termination_by s.length
decreasing_by
  · have h1 : 0 < pat.length := List.length_pos.mpr h.1
    have h2 : pat.length ≤ s.length := ( List.isPrefixOf_iff_prefix.mp h.2).length_le
    simp only [List.length_drop]
    omega
  · simp

/-- Rust `str::split_once(pat)`: split around the first occurrence of
`pat`, returning the parts before and after it, or `none` when `pat` does
not occur. -/
def splitOnceSub (pat : List Char) : List Char → Option (List Char × List Char)
  | [] => if pat.isPrefixOf [] then some ([], []) else none
  | c :: cs =>
    if pat.isPrefixOf (c :: cs) then some ([], (c :: cs).drop pat.length)
    else (splitOnceSub pat cs).map (fun q => (c :: q.1, q.2))

/-- Rust `str::split(pat)` for a nonempty pattern, materialized as the
list of pieces between consecutive non-overlapping occurrences of `pat`
(always at least one piece, as in Rust). -/
def splitOnSub (pat : List Char) (s : List Char) : List (List Char) :=
  if h : pat ≠ [] ∧ pat.isPrefixOf s then
    [] :: splitOnSub pat (s.drop pat.length)
  else
    match s with
    | [] => [[]]
    | c :: cs =>
      match splitOnSub pat cs with
      | piece :: rest => (c :: piece) :: rest
      | [] => [[c]]
termination_by s.length
decreasing_by
  · have h1 : 0 < pat.length := List.length_pos.mpr h.1
    have h2 : pat.length ≤ s.length := ( List.isPrefixOf_iff_prefix.mp h.2).length_le
    simp only [List.length_drop]
    omega
  · simp

/-! ## Cache-filename sanitization (`path_safe_doi`, main.rs:339-341) -/

/-- Shallow embedding of `path_safe_doi`: `doi.replace("/", "--")`. -/
def path_safe_doi (doi : List Char) : List Char :=
  strReplace doi ['/'] ['-', '-']

/-- Structural companion of `path_safe_doi` used in proofs: since the
pattern `"/"` is a single character, the replacement proceeds character by
character (`path_safe_doi_eq_replaceSlash` below proves the agreement). -/
def replaceSlash : List Char → List Char
  | [] => []
  | c :: cs => if c = '/' then '-' :: '-' :: replaceSlash cs else c :: replaceSlash cs

/-! ## Source adapters (`remotes/arxiv.rs`, `remotes/scihub.rs`)

Each HTTP request the adapters issue is recorded as one `Eff`; the
environment scripts each response (`none` models a transport failure of
that request).  `FetchOutcome` distinguishes the `eyre` error raised for a
missing embed marker / missing arXiv prefix (`parseErr`) from transport
errors (`netErr`), and has a dedicated `panicked` outcome standing for the
two `unwrap()` calls in `scihub::fetch_pdf` so that their (un)reachability
can be stated. -/

/-- One observable side effect of the `Command::Pdfs` batch. -/
inductive Eff
  /-- `GET https://arxiv.org/pdf/{id}.pdf` (arxiv.rs:20-25). -/
  | arxivGet (id : List Char)
  /-- `GET https://sci-hub.ru/{doi}` — the landing page (scihub.rs:9-14). -/
  | scihubGetLanding (url : List Char)
  /-- `GET` of the (resolved) embedded document URL (scihub.rs:37-39). -/
  | scihubGetPdf (url : List Char)
  /-- `fs::create_dir_all(setup.pdf_dir())` (main.rs:328). -/
  | mkdirPdfs
  /-- `fs::write(&path, pdf)` (main.rs:330). -/
  | writePdf (path : List Char) (pdf : List Nat)
  /-- a `warn!(title=%title, ...)` log line naming the entry (main.rs:298,314,323). -/
  | warn (title : List Char)
deriving DecidableEq

/-- Result of one adapter invocation. -/
inductive FetchOutcome
  /-- the PDF bytes were returned -/
  | ok (pdf : List Nat)
  /-- HTTP transport failure (a `reqwest` error propagated by `?`) -/
  | netErr
  /-- `eyre!` parse failure: no embed marker line (scihub.rs:21) or no
  `"/ARXIV."` segment (arxiv.rs:18) -/
  | parseErr
  /-- an `unwrap()` in scihub.rs:24/27 panicked -/
  | panicked
deriving DecidableEq

/-- The fixed substring `is_arxiv` looks for (arxiv.rs:8). -/
def arxivPat : List Char := "/ARXIV.".toList

/-- Shallow embedding of `is_arxiv` (arxiv.rs:7-9): `doi.contains("/ARXIV.")`. -/
def is_arxiv (doi : List Char) : Bool := containsSub doi arxivPat

/-- Shallow embedding of `arxiv::fetch_pdf` (arxiv.rs:14-27): strip
everything up to and including the first `"/ARXIV."`, failing if absent;
then issue one GET for `https://arxiv.org/pdf/{id}.pdf` and return the
body.  `resp` scripts that response. -/
def arxiv_fetch_pdf (resp : Option (List Nat)) (doi : List Char) :
    List Eff × FetchOutcome :=
  match splitOnceSub arxivPat doi with
  | none => ([], .parseErr)
  | some (_, id) =>
    match resp with
    | none => ([Eff.arxivGet id], .netErr)
    | some pdf => ([Eff.arxivGet id], .ok pdf)

/-- The sci-hub adapter's fixed origin (scihub.rs:9,32). -/
def scihubOrigin : List Char := "https://sci-hub.ru".toList

/-- The embedded-document-viewer marker line filter (scihub.rs:19). -/
def embedMarker : List Char := "embed type=\"application/pdf\" src=\"".toList

/-- The attribute token the found line is split on (scihub.rs:22). -/
def srcMarker : List Char := "src=\"".toList

/-- The closing-quote token the second split uses (scihub.rs:25). -/
def quoteChar : List Char := "\"".toList

/-- Relative-URL resolution (scihub.rs:31-35): a URL starting with `/` is
prefixed with the fixed origin, any other URL is used unchanged. -/
def resolve_pdf_url (pdf_url : List Char) : List Char :=
  if ['/'].isPrefixOf pdf_url then scihubOrigin ++ pdf_url else pdf_url

/-- Shallow embedding of `scihub::fetch_pdf` (scihub.rs:8-40): GET the
landing page `https://sci-hub.ru/{doi}`; find the first line containing
`embedMarker`, failing with a parse error if none; split that line on
`src="` and take the second piece, then split on `"` and take the first
piece (the two `unwrap()`s become the `panicked` outcome if the expected
piece is missing); resolve a `/`-relative URL against the origin; GET the
resolved URL and return its body.  `landing` scripts the landing response
as its list of lines (`none`: transport failure); `pdfResp` scripts the
second response. -/
def scihub_fetch_pdf (landing : Option (List (List Char)))
    (pdfResp : Option (List Nat)) (doi : List Char) : List Eff × FetchOutcome :=
  let url := scihubOrigin ++ '/' :: doi
  match landing with
  | none => ([Eff.scihubGetLanding url], .netErr)
  | some body =>
    match body.find? (fun line => containsSub line embedMarker) with
    | none => ([Eff.scihubGetLanding url], .parseErr)
    | some line =>
      match splitOnSub srcMarker line with
      | _ :: piece :: _ =>
        match splitOnSub quoteChar piece with
        | pdf_url :: _ =>
          match pdfResp with
          | none =>
            ([Eff.scihubGetLanding url, Eff.scihubGetPdf (resolve_pdf_url pdf_url)],
              .netErr)
          | some pdf =>
            ([Eff.scihubGetLanding url, Eff.scihubGetPdf (resolve_pdf_url pdf_url)],
              .ok pdf)
        | [] => ([Eff.scihubGetLanding url], .panicked)
      | _ => ([Eff.scihubGetLanding url], .panicked)

/-! ## The `Command::Pdfs` batch loop (main.rs:290-333)

One `Entry` bundles what the loop body observes about a bibliography
entry: the result of `entry.doi()`, the display title used in warnings,
whether the artifact file at the computed cache path already exists, and
the scripted responses/outcomes of the external interactions the body may
perform for it. -/

/-- Inputs of one iteration of the `Command::Pdfs` loop. -/
structure Entry where
  /-- `entry.doi()`: the identifier, or `none` if extraction failed. -/
  doi : Option (List Char)
  /-- the display title (`entry.title()...`) used in `warn!` lines. -/
  title : List Char
  /-- whether `path.exists()` holds for this entry's cache path. -/
  cached : Bool
  /-- scripted response body of the arXiv GET, if that request happens. -/
  arxivResp : Option (List Nat)
  /-- scripted landing-page lines of the sci-hub GET, if it happens. -/
  scihubLanding : Option (List (List Char))
  /-- scripted response body of the second sci-hub GET, if it happens. -/
  scihubPdfResp : Option (List Nat)
  /-- whether `fs::create_dir_all` succeeds. -/
  mkdirOk : Bool
  /-- whether `fs::write` succeeds. -/
  writeOk : Bool

/-- How one loop iteration ends. -/
inductive StepResult
  /-- `continue` to the next entry (missing DOI, cached artifact, or a
  logged fetch failure). -/
  | skipped
  /-- the artifact was fetched and persisted. -/
  | wrote
  /-- an `?`-propagated io error; aborts the whole command. -/
  | fatal
  /-- an `unwrap()` panic propagated out of the adapter. -/
  | panicked
deriving DecidableEq

/-- The cache path (relative to `pdf_dir`) computed at main.rs:302:
`format!("{}.pdf", path_safe_doi(&doi))`. -/
def pdfPath (doi : List Char) : List Char := path_safe_doi doi ++ ".pdf".toList

/-- The adapter dispatch at main.rs:309-327: `if is_arxiv(&doi)` use the
arXiv adapter, otherwise the sci-hub adapter. -/
def fetch_entry (e : Entry) (doi : List Char) : List Eff × FetchOutcome :=
  if is_arxiv doi then arxiv_fetch_pdf e.arxivResp doi
  else scihub_fetch_pdf e.scihubLanding e.scihubPdfResp doi

/-- Shallow embedding of one iteration of the `Command::Pdfs` loop body
(main.rs:293-332): extract the DOI (warn and continue if missing); skip if
the cache artifact exists; otherwise dispatch to the routed adapter; on a
fetch error warn and continue; on success create the cache directory and
persist the bytes (io failures are fatal). -/
def process_entry (e : Entry) : List Eff × StepResult :=
  match e.doi with
  | none => ([Eff.warn e.title], .skipped)
  | some doi =>
    if e.cached then ([], .skipped)
    else
      match fetch_entry e doi with
      | (effs, .netErr) => (effs ++ [Eff.warn e.title], .skipped)
      | (effs, .parseErr) => (effs ++ [Eff.warn e.title], .skipped)
      | (effs, .panicked) => (effs, .panicked)
      | (effs, .ok pdf) =>
        if e.mkdirOk then
          (effs ++ [Eff.mkdirPdfs, Eff.writePdf (pdfPath doi) pdf],
            if e.writeOk then .wrote else .fatal)
        else (effs ++ [Eff.mkdirPdfs], .fatal)

/-- The whole `Command::Pdfs` batch: iterate the entries in order; a
`skipped` or `wrote` iteration proceeds to the next entry, while a fatal
io error (or a panic) aborts the remaining batch. -/
def process_batch : List Entry → List Eff × Except Unit Unit
  | [] => ([], .ok ())
  | e :: rest =>
    match (process_entry e).2 with
    | .fatal => ((process_entry e).1, .error ())
    | .panicked => ((process_entry e).1, .error ())
    | _ => ((process_entry e).1 ++ (process_batch rest).1, (process_batch rest).2)

/-! ## Repository locator (`Setup::determine_from`, main.rs:398-416)

Directories are modelled as lists of path components with the innermost
component first, so `[]` is the filesystem root and `List.tail` is
`Utf8Path::parent`.  The filesystem is an oracle `marker : List String →
Bool` telling whether the directory contains a `.zime` entry (`config_dir
= current.join(".zime"); config_dir.exists()`); the walk only ever
queries this oracle — it creates nothing.  The returned trace lists the
directories whose `.zime` entry was tested, in order. -/

/-- What the locator resolves to. -/
inductive Loc
  /-- a found store: `Setup::new(None, Some(config_dir))` with `config_dir
  = current.join(".zime")`. -/
  | store (configDir : List String)
  /-- no ancestor matched: fall back to the process-wide default
  (`Setup::new(None, None)`, i.e. `global_config_dir()`). -/
  | global
deriving DecidableEq

/-- `current.join(".zime")`, in innermost-first component representation. -/
def zimeDir (p : List String) : List String := ".zime" :: p

/-- Shallow embedding of `Setup::determine_from` (main.rs:398-416): walk
up from the starting directory; return the first directory whose `.zime`
entry exists (as its `.zime` store path); after the root, fall back to
the global default.  Also returns the trace of directories tested. -/
def determine_from (marker : List String → Bool) :
    List String → List (List String) × Loc
  | [] => ([[]], if marker [] then Loc.store (zimeDir []) else Loc.global)
  | p@(_ :: parent) =>
    if marker p then ([p], Loc.store (zimeDir p))
    else (p :: (determine_from marker parent).1, (determine_from marker parent).2)

/-! ## Version-control synchronization (`Setup::sync_git`, main.rs:438-466)

Each `git` subprocess invocation is one `GitOp`.  A `GitEnv` records the
repository's bound remote (`Setup::git`), the outcome of the
`git status --porcelain` read (`none` means the read itself failed), and
whether each subsequent git command exits successfully.  `sync_git`
returns the ordered trace of git commands attempted together with
`Except.ok ()` on success or `Except.error op` naming the first failing
operation (the Rust `?` early return). -/

/-- One `git` subprocess invocation made by `Setup::sync_git`. -/
inductive GitOp
  /-- `git status --porcelain` -/
  | status
  /-- `git add .` -/
  | add
  /-- `git commit -m "zime: auto commit"` -/
  | commit
  /-- `git pull origin main --rebase` -/
  | pullRebase
  /-- `git push origin main` -/
  | push
deriving DecidableEq

/-- Environment for one `sync_git` run: the bound remote and the scripted
outcome of each external git command. -/
structure GitEnv where
  /-- `self.git()`: the bound remote URL, if any. -/
  remote : Option String
  /-- Output of `git status --porcelain` (`none`: the read failed). -/
  statusOutput : Option String
  /-- Whether `git add .` succeeds. -/
  addOk : Bool
  /-- Whether `git commit` succeeds. -/
  commitOk : Bool
  /-- Whether `git pull origin main --rebase` succeeds. -/
  pullOk : Bool
  /-- Whether `git push origin main` succeeds. -/
  pushOk : Bool

/-- Shallow embedding of `Setup::sync_git` (main.rs:438-466).  Mirrors the
Rust control flow: no-op when no remote is bound; read `status`; if dirty,
`add` then `commit` (each fatal); unconditionally `pull --rebase` (fatal);
if dirty, `push` (fatal).  Returns the trace of attempted git operations
and the result. -/
def sync_git (e : GitEnv) : List GitOp × Except GitOp Unit :=
  match e.remote with
  | none => ([], .ok ())
  | some _ =>
    match e.statusOutput with
    | none => ([GitOp.status], .error GitOp.status)
    | some status =>
      -- commit if any changes
      let (t1, r1) :=
        if status ≠ "" then
          if e.addOk then
            if e.commitOk then
              ([GitOp.status, GitOp.add, GitOp.commit], Except.ok ())
            else
              ([GitOp.status, GitOp.add, GitOp.commit], Except.error GitOp.commit)
          else
            ([GitOp.status, GitOp.add], Except.error GitOp.add)
        else
          ([GitOp.status], Except.ok ())
      match r1 with
      | .error op => (t1, .error op)
      | .ok () =>
        -- pull from upstream
        let t2 := t1 ++ [GitOp.pullRebase]
        if e.pullOk then
          -- push changes
          if status ≠ "" then
            if e.pushOk then
              (t2 ++ [GitOp.push], Except.ok ())
            else
              (t2 ++ [GitOp.push], Except.error GitOp.push)
          else
            (t2, Except.ok ())
        else
          (t2, Except.error GitOp.pullRebase)

end Zime

namespace Zime

/-! ## Helper lemmas about the string primitives -/

/-- `isPrefixOf` in existential form. -/
theorem isPrefixOf_exists {l1 l2 : List Char} :
    l1.isPrefixOf l2 = true ↔ ∃ t, l1 ++ t = l2 :=
  List.isPrefixOf_iff_prefix

/-- `containsSub` in existential form: a substring occurrence is a
decomposition. -/
theorem containsSub_iff {s pat : List Char} :
    containsSub s pat = true ↔ ∃ a b, s = a ++ (pat ++ b) := by
  induction s with
  | nil =>
    simp only [containsSub, isPrefixOf_exists]
    constructor
    · rintro ⟨t, ht⟩
      obtain ⟨h1, h2⟩ := List.append_eq_nil.mp ht
      exact ⟨[], [], by simp [h1, h2]⟩
    · rintro ⟨a, b, hab⟩
      obtain ⟨ha, hpb⟩ := List.append_eq_nil.mp hab.symm
      obtain ⟨hp, hb⟩ := List.append_eq_nil.mp hpb
      exact ⟨[], by simp [hp]⟩
  | cons c cs ih =>
    simp only [containsSub, Bool.or_eq_true, isPrefixOf_exists, ih]
    constructor
    · rintro (⟨t, ht⟩ | ⟨a, b, hab⟩)
      · exact ⟨[], t, by simp [ht]⟩
      · exact ⟨c :: a, b, by simp [hab]⟩
    · rintro ⟨a, b, hab⟩
      cases a with
      | nil => exact Or.inl ⟨b, by simpa using hab.symm⟩
      | cons a0 as =>
        simp only [List.cons_append, List.cons.injEq] at hab
        exact Or.inr ⟨as, b, hab.2⟩

/-- Substring containment is transitive. -/
theorem containsSub_trans {line big small : List Char}
    (h1 : containsSub line big = true) (h2 : containsSub big small = true) :
    containsSub line small = true := by
  rw [containsSub_iff] at h1 h2 ⊢
  obtain ⟨a, b, rfl⟩ := h1
  obtain ⟨x, z, hx⟩ := h2
  exact ⟨a ++ x, z ++ b, by rw [hx]; simp⟩

/-- When the pattern occurs, `split_once` finds it. -/
theorem splitOnceSub_isSome {pat s : List Char} (h : containsSub s pat = true) :
    ∃ q, splitOnceSub pat s = some q := by
  induction s with
  | nil =>
    have hp : pat.isPrefixOf [] = true := by simpa [containsSub] using h
    exact ⟨([], []), by simp [splitOnceSub, hp]⟩
  | cons c cs ih =>
    by_cases hp : pat.isPrefixOf (c :: cs) = true
    · exact ⟨([], (c :: cs).drop pat.length), by simp [splitOnceSub, hp]⟩
    · have hcs : containsSub cs pat = true := by
        have := h
        simp only [containsSub, Bool.or_eq_true] at this
        exact this.resolve_left (by simpa using hp)
      obtain ⟨q, hq⟩ := ih hcs
      exact ⟨(c :: q.1, q.2), by simp [splitOnceSub, hp, hq]⟩

/-- `split` always yields at least one piece (as in Rust). -/
theorem splitOnSub_ne_nil (pat s : List Char) : splitOnSub pat s ≠ [] := by
  rw [splitOnSub]
  split
  · simp
  · split
    · simp
    · split <;> simp

/-- When a nonempty pattern occurs, `split` yields at least two pieces. -/
theorem splitOnSub_two {pat s : List Char} (hne : pat ≠ [])
    (h : containsSub s pat = true) :
    ∃ x y l, splitOnSub pat s = x :: y :: l := by
  induction s with
  | nil =>
    have hp : pat.isPrefixOf [] = true := by simpa [containsSub] using h
    obtain ⟨t, ht⟩ := isPrefixOf_exists.mp hp
    exact absurd (List.append_eq_nil.mp ht).1 hne
  | cons c cs ih =>
    by_cases hp : pat.isPrefixOf (c :: cs) = true
    · refine ⟨[], ?_⟩
      rw [splitOnSub]
      rw [dif_pos ⟨hne, hp⟩]
      cases hsp : splitOnSub pat ((c :: cs).drop pat.length) with
      | nil => exact absurd hsp (splitOnSub_ne_nil _ _)
      | cons y l => exact ⟨y, l, rfl⟩
    · have hcs : containsSub cs pat = true := by
        have := h
        simp only [containsSub, Bool.or_eq_true] at this
        exact this.resolve_left (by simpa using hp)
      obtain ⟨x, y, l, hx⟩ := ih hcs
      refine ⟨c :: x, y, l, ?_⟩
      rw [splitOnSub]
      rw [dif_neg (by simp [hp])]
      simp [hx]

/-- C1: for a repository with a bound remote whose working tree is dirty at
the start of synchronization, `sync_git` attempts (after the status read)
`add`, `commit`, `pull --rebase`, `push` in that exact order — the trace is
always a prefix of that sequence, and is exactly that sequence when every
step succeeds — and when the commit step fails, neither the pull nor the
push is attempted. -/
theorem sync_git_dirty_order (e : GitEnv) (r s : String)
    (hr : e.remote = some r) (hs : e.statusOutput = some s) (hd : s ≠ "") :
    (∃ n, (sync_git e).1 =
      [GitOp.status, GitOp.add, GitOp.commit, GitOp.pullRebase, GitOp.push].take n) ∧
    (e.addOk = true → e.commitOk = true → e.pullOk = true → e.pushOk = true →
      (sync_git e).1 =
        [GitOp.status, GitOp.add, GitOp.commit, GitOp.pullRebase, GitOp.push]) ∧
    (e.addOk = true → e.commitOk = false →
      (sync_git e).1 = [GitOp.status, GitOp.add, GitOp.commit] ∧
      GitOp.pullRebase ∉ (sync_git e).1 ∧ GitOp.push ∉ (sync_git e).1 ∧
      (sync_git e).2 = .error GitOp.commit) := by
  refine ⟨?_, ?_, ?_⟩
  · by_cases ha : e.addOk = true <;>
      by_cases hc : e.commitOk = true <;>
        by_cases hp : e.pullOk = true <;>
          by_cases hq : e.pushOk = true <;>
            simp_all [sync_git] <;>
            first
            | exact ⟨5, by decide⟩
            | exact ⟨4, by decide⟩
            | exact ⟨3, by decide⟩
            | exact ⟨2, by decide⟩
  · intro ha hc hp hq
    simp_all [sync_git]
  · intro ha hc
    simp_all [sync_git]

/-- Witness for `sync_git_dirty_order` at a concrete dirty environment. -/
theorem sync_git_dirty_order_witness :
    (∃ n, (sync_git ⟨some "url", some "M a", true, true, true, true⟩).1 =
      [GitOp.status, GitOp.add, GitOp.commit, GitOp.pullRebase, GitOp.push].take n) ∧
    (true = true → true = true → true = true → true = true →
      (sync_git ⟨some "url", some "M a", true, true, true, true⟩).1 =
        [GitOp.status, GitOp.add, GitOp.commit, GitOp.pullRebase, GitOp.push]) ∧
    (true = true → true = false →
      (sync_git ⟨some "url", some "M a", true, true, true, true⟩).1 =
        [GitOp.status, GitOp.add, GitOp.commit] ∧
      GitOp.pullRebase ∉ (sync_git ⟨some "url", some "M a", true, true, true, true⟩).1 ∧
      GitOp.push ∉ (sync_git ⟨some "url", some "M a", true, true, true, true⟩).1 ∧
      (sync_git ⟨some "url", some "M a", true, true, true, true⟩).2 =
        .error GitOp.commit) :=
  sync_git_dirty_order ⟨some "url", some "M a", true, true, true, true⟩
    "url" "M a" rfl rfl (by decide)

/-- C2: for a repository with a bound remote whose working tree is clean at
the start, `sync_git` attempts exactly the status read followed by the
rebase-pull: it never commits and never pushes (whatever the pull brings
in), it does attempt the rebase-pull, and dirtiness is read exactly once. -/
theorem sync_git_clean (e : GitEnv) (r : String)
    (hr : e.remote = some r) (hs : e.statusOutput = some "") :
    (sync_git e).1 = [GitOp.status, GitOp.pullRebase] ∧
    GitOp.commit ∉ (sync_git e).1 ∧
    GitOp.push ∉ (sync_git e).1 ∧
    GitOp.pullRebase ∈ (sync_git e).1 ∧
    ((sync_git e).1.count GitOp.status) = 1 := by
  by_cases hp : e.pullOk = true <;> simp_all [sync_git]

/-- Witness for `sync_git_clean` at a concrete clean environment. -/
theorem sync_git_clean_witness :
    (sync_git ⟨some "url", some "", true, true, true, true⟩).1 =
      [GitOp.status, GitOp.pullRebase] ∧
    GitOp.commit ∉ (sync_git ⟨some "url", some "", true, true, true, true⟩).1 ∧
    GitOp.push ∉ (sync_git ⟨some "url", some "", true, true, true, true⟩).1 ∧
    GitOp.pullRebase ∈ (sync_git ⟨some "url", some "", true, true, true, true⟩).1 ∧
    ((sync_git ⟨some "url", some "", true, true, true, true⟩).1.count GitOp.status) = 1 :=
  sync_git_clean ⟨some "url", some "", true, true, true, true⟩ "url" rfl rfl

/-- C3: for a repository with no bound remote, `sync_git` performs no git
operation at all (empty trace: nothing is read or written) and returns
success. -/
theorem sync_git_no_remote (e : GitEnv) (hr : e.remote = none) :
    (sync_git e).1 = [] ∧ (sync_git e).2 = .ok () := by
  simp [sync_git, hr]

/-- Witness for `sync_git_no_remote` at a concrete remote-less environment. -/
theorem sync_git_no_remote_witness :
    (sync_git ⟨none, some "", true, true, true, true⟩).1 = [] ∧
    (sync_git ⟨none, some "", true, true, true, true⟩).2 = .ok () :=
  sync_git_no_remote ⟨none, some "", true, true, true, true⟩ rfl

/-! ## Sanitization (`path_safe_doi`) -/

/-- Since the pattern `"/"` is a single character, `path_safe_doi`
processes its input character by character. -/
theorem path_safe_doi_eq_replaceSlash (s : List Char) :
    path_safe_doi s = replaceSlash s := by
  induction s with
  | nil => rw [path_safe_doi, strReplace]; simp [replaceSlash]
  | cons c cs ih =>
    simp only [path_safe_doi] at ih ⊢
    rw [strReplace]
    by_cases hc : c = '/'
    · subst hc
      rw [dif_pos ⟨by simp, by simp [List.isPrefixOf]⟩]
      simp [replaceSlash, ih]
    · rw [dif_neg (by simp [List.isPrefixOf, hc]; exact fun he => hc he.symm)]
      simp [replaceSlash, hc, ih]

/-- The output of the sanitization never contains a slash. -/
theorem replaceSlash_no_slash (s : List Char) : '/' ∉ replaceSlash s := by
  induction s with
  | nil => simp [replaceSlash]
  | cons c cs ih =>
    by_cases hc : c = '/' <;> simp [replaceSlash, hc, ih]
    intro h
    exact absurd h.symm hc

/-- On a slash-free string the sanitization is the identity. -/
theorem replaceSlash_id_of_no_slash (s : List Char) (h : '/' ∉ s) :
    replaceSlash s = s := by
  induction s with
  | nil => simp [replaceSlash]
  | cons c cs ih =>
    simp only [List.mem_cons, not_or] at h
    simp [replaceSlash, ih h.2]
    exact fun he => h.1 he.symm

/-- C6: the cache-filename sanitization replaces every `/` with `--` —
on `10.1109/5.771073` it yields `10.1109--5.771073` — and it is
idempotent: applying it to an already-sanitized string changes nothing. -/
theorem path_safe_doi_spec :
    path_safe_doi "10.1109/5.771073".toList = "10.1109--5.771073".toList ∧
    ∀ doi : List Char, path_safe_doi (path_safe_doi doi) = path_safe_doi doi := by
  constructor
  · rw [path_safe_doi_eq_replaceSlash]; decide
  · intro doi
    simp only [path_safe_doi_eq_replaceSlash]
    exact replaceSlash_id_of_no_slash _ (replaceSlash_no_slash _)

/-! ## The sci-hub adapter -/

/-- Whatever happens, the sci-hub adapter's first effect is the landing
GET for `https://sci-hub.ru/{doi}`. -/
theorem scihub_fetch_head (landing : Option (List (List Char)))
    (pdfResp : Option (List Nat)) (doi : List Char) :
    (scihub_fetch_pdf landing pdfResp doi).1.head? =
      some (Eff.scihubGetLanding (scihubOrigin ++ '/' :: doi)) := by
  unfold scihub_fetch_pdf
  cases landing with
  | none => simp
  | some body =>
    cases hf : body.find? (fun line => containsSub line embedMarker) with
    | none => simp [hf]
    | some line =>
      cases hs : splitOnSub srcMarker line with
      | nil => simp [hf, hs]
      | cons p0 ps =>
        cases ps with
        | nil => simp [hf, hs]
        | cons piece prest =>
          cases hq : splitOnSub quoteChar piece with
          | nil => simp [hf, hs, hq]
          | cons u urest => cases pdfResp <;> simp [hf, hs, hq]

/-- C10: the two `unwrap()`s in the sci-hub extraction cannot panic: a
line containing the embed marker always splits on `src="` into at least
two pieces (the line contains the separator), any string splits on `"`
into at least one piece, and consequently no run of the adapter ever
reaches the `panicked` outcome. -/
theorem scihub_unwraps_total :
    (∀ line, containsSub line embedMarker = true →
      ∃ x y l, splitOnSub srcMarker line = x :: y :: l) ∧
    (∀ piece : List Char, ∃ u l, splitOnSub quoteChar piece = u :: l) ∧
    (∀ (landing : Option (List (List Char))) (pdfResp : Option (List Nat))
      (doi : List Char),
      (scihub_fetch_pdf landing pdfResp doi).2 ≠ FetchOutcome.panicked) := by
  have marker2 : ∀ line, containsSub line embedMarker = true →
      ∃ x y l, splitOnSub srcMarker line = x :: y :: l := by
    intro line h
    exact splitOnSub_two (by decide) (containsSub_trans h (by decide))
  have headPiece : ∀ piece : List Char,
      ∃ u l, splitOnSub quoteChar piece = u :: l := by
    intro piece
    cases hq : splitOnSub quoteChar piece with
    | nil => exact absurd hq (splitOnSub_ne_nil _ _)
    | cons u l => exact ⟨u, l, rfl⟩
  refine ⟨marker2, headPiece, ?_⟩
  intro landing pdfResp doi
  unfold scihub_fetch_pdf
  cases landing with
  | none => simp
  | some body =>
    cases hf : body.find? (fun line => containsSub line embedMarker) with
    | none => simp [hf]
    | some line =>
      have hline : containsSub line embedMarker = true := by
        simpa using List.find?_some hf
      obtain ⟨x, y, l, hxy⟩ := marker2 line hline
      obtain ⟨u, ul, hu⟩ := headPiece y
      cases pdfResp <;> simp [hf, hxy, hu]

/-- Witness for `scihub_unwraps_total`: its first component applied to a
concrete marker-bearing line. -/
theorem scihub_unwraps_total_witness :
    ∃ x y l,
      splitOnSub srcMarker
        "<embed type=\"application/pdf\" src=\"/downloads/x.pdf\">".toList =
      x :: y :: l :=
  scihub_unwraps_total.1
    "<embed type=\"application/pdf\" src=\"/downloads/x.pdf\">".toList
    (by decide)

/-- C9: a landing page none of whose lines contains the embed marker makes
the sci-hub adapter fail with the parse error (after only the landing
GET), and in the `Command::Pdfs` batch this per-entry failure is logged
with the entry's display title and the batch continues with the remaining
entries instead of aborting. -/
theorem scihub_no_marker (body : List (List Char)) (pdfResp : Option (List Nat))
    (doi : List Char) (e : Entry) (rest : List Entry)
    (hb : ∀ line ∈ body, containsSub line embedMarker = false)
    (hdoi : e.doi = some doi) (hcache : e.cached = false)
    (harx : is_arxiv doi = false)
    (hland : e.scihubLanding = some body) (hresp : e.scihubPdfResp = pdfResp) :
    scihub_fetch_pdf (some body) pdfResp doi =
      ([Eff.scihubGetLanding (scihubOrigin ++ '/' :: doi)],
        FetchOutcome.parseErr) ∧
    process_entry e =
      ([Eff.scihubGetLanding (scihubOrigin ++ '/' :: doi), Eff.warn e.title],
        StepResult.skipped) ∧
    (process_batch (e :: rest)).2 = (process_batch rest).2 ∧
    Eff.warn e.title ∈ (process_batch (e :: rest)).1 := by
  have hfind : body.find? (fun line => containsSub line embedMarker) = none := by
    rw [List.find?_eq_none]
    intro x hx
    simp [hb x hx]
  have h1 : scihub_fetch_pdf (some body) pdfResp doi =
      ([Eff.scihubGetLanding (scihubOrigin ++ '/' :: doi)],
        FetchOutcome.parseErr) := by
    simp [scihub_fetch_pdf, hfind]
  have h2 : process_entry e =
      ([Eff.scihubGetLanding (scihubOrigin ++ '/' :: doi), Eff.warn e.title],
        StepResult.skipped) := by
    simp [process_entry, hdoi, hcache, fetch_entry, harx, hland, hresp, h1]
  exact ⟨h1, h2, by simp [process_batch, h2], by simp [process_batch, h2]⟩

/-- Witness for `scihub_no_marker`: a concrete fixture page with a single
marker-free line, processed in a batch with one further entry. -/
theorem scihub_no_marker_witness :
    scihub_fetch_pdf (some ["<html></html>".toList]) none "10.1/x".toList =
      ([Eff.scihubGetLanding (scihubOrigin ++ '/' :: "10.1/x".toList)],
        FetchOutcome.parseErr) ∧
    process_entry
        ⟨some "10.1/x".toList, "T".toList, false, none,
          some ["<html></html>".toList], none, true, true⟩ =
      ([Eff.scihubGetLanding (scihubOrigin ++ '/' :: "10.1/x".toList),
        Eff.warn "T".toList], StepResult.skipped) ∧
    (process_batch
        (⟨some "10.1/x".toList, "T".toList, false, none,
          some ["<html></html>".toList], none, true, true⟩ ::
          [⟨some "10.2/y".toList, "U".toList, true, none, none, none, true,
            true⟩])).2 =
      (process_batch
        [⟨some "10.2/y".toList, "U".toList, true, none, none, none, true,
          true⟩]).2 ∧
    Eff.warn "T".toList ∈
      (process_batch
        (⟨some "10.1/x".toList, "T".toList, false, none,
          some ["<html></html>".toList], none, true, true⟩ ::
          [⟨some "10.2/y".toList, "U".toList, true, none, none, none, true,
            true⟩])).1 :=
  scihub_no_marker ["<html></html>".toList] none "10.1/x".toList
    ⟨some "10.1/x".toList, "T".toList, false, none,
      some ["<html></html>".toList], none, true, true⟩
    [⟨some "10.2/y".toList, "U".toList, true, none, none, none, true, true⟩]
    (by decide) rfl rfl (by decide) rfl rfl

/-- C8: a document URL extracted from the landing page that starts with
`/` is resolved against the adapter's fixed origin — it becomes the origin
followed by the extracted path — any other extracted URL is used
unchanged, and the second HTTP request of the adapter targets exactly the
resolved URL. -/
theorem scihub_relative_url :
    (∀ u, ['/'].isPrefixOf u = true → resolve_pdf_url u = scihubOrigin ++ u) ∧
    (∀ u, ['/'].isPrefixOf u = false → resolve_pdf_url u = u) ∧
    (∀ (body : List (List Char)) (pdfResp : Option (List Nat))
      (doi line p0 piece : List Char) (prest : List (List Char))
      (u : List Char) (urest : List (List Char)),
      body.find? (fun l => containsSub l embedMarker) = some line →
      splitOnSub srcMarker line = p0 :: piece :: prest →
      splitOnSub quoteChar piece = u :: urest →
      (scihub_fetch_pdf (some body) pdfResp doi).1 =
        [Eff.scihubGetLanding (scihubOrigin ++ '/' :: doi),
          Eff.scihubGetPdf (resolve_pdf_url u)]) := by
  refine ⟨?_, ?_, ?_⟩
  · intro u h
    simp [resolve_pdf_url, h]
  · intro u h
    simp [resolve_pdf_url, h]
  · intro body pdfResp doi line p0 piece prest u urest hf hs hq
    cases pdfResp <;> simp [scihub_fetch_pdf, hf, hs, hq]

unseal splitOnSub in
/-- Witness for `scihub_relative_url`: the fixture page whose embed tag
references `/downloads/x.pdf` makes the second request target
`https://sci-hub.ru/downloads/x.pdf`. -/
theorem scihub_relative_url_witness :
    (scihub_fetch_pdf
        (some ["<embed type=\"application/pdf\" src=\"/downloads/x.pdf\">".toList])
        (some []) "10.1/x".toList).1 =
      [Eff.scihubGetLanding (scihubOrigin ++ '/' :: "10.1/x".toList),
        Eff.scihubGetPdf "https://sci-hub.ru/downloads/x.pdf".toList] := by
  have h := scihub_relative_url.2.2
    ["<embed type=\"application/pdf\" src=\"/downloads/x.pdf\">".toList]
    (some []) "10.1/x".toList
    "<embed type=\"application/pdf\" src=\"/downloads/x.pdf\">".toList
    "<embed type=\"application/pdf\" ".toList
    "/downloads/x.pdf\">".toList []
    "/downloads/x.pdf".toList [">".toList]
    (by decide) (by decide) (by decide)
  rw [h]
  decide

/-! ## The `Command::Pdfs` batch: cache skip and routing -/

/-- C4: an entry whose cache artifact already exists is skipped with an
empty effect trace — no HTTP request is issued and no file is written, so
the existing artifact is untouched — and the batch proceeds to the next
entry with the same overall outcome. -/
theorem pdfs_cached_skip (e : Entry) (doi : List Char) (rest : List Entry)
    (hdoi : e.doi = some doi) (hcache : e.cached = true) :
    process_entry e = ([], StepResult.skipped) ∧
    (process_batch (e :: rest)).1 = (process_batch rest).1 ∧
    (process_batch (e :: rest)).2 = (process_batch rest).2 := by
  have h1 : process_entry e = ([], StepResult.skipped) := by
    simp [process_entry, hdoi, hcache]
  exact ⟨h1, by simp [process_batch, h1], by simp [process_batch, h1]⟩

/-- Witness for `pdfs_cached_skip` at a concrete cached entry. -/
theorem pdfs_cached_skip_witness :
    process_entry
        ⟨some "10.1/x".toList, "T".toList, true, none, none, none, true, true⟩ =
      ([], StepResult.skipped) ∧
    (process_batch
        [⟨some "10.1/x".toList, "T".toList, true, none, none, none, true,
          true⟩]).1 =
      (process_batch []).1 ∧
    (process_batch
        [⟨some "10.1/x".toList, "T".toList, true, none, none, none, true,
          true⟩]).2 =
      (process_batch []).2 :=
  pdfs_cached_skip
    ⟨some "10.1/x".toList, "T".toList, true, none, none, none, true, true⟩
    "10.1/x".toList [] rfl rfl

/-- For an uncached entry with a DOI, the iteration's effect trace starts
with the routed adapter's effects. -/
theorem process_entry_effs (e : Entry) (doi : List Char)
    (hdoi : e.doi = some doi) (hcache : e.cached = false) :
    ∃ t, (process_entry e).1 = (fetch_entry e doi).1 ++ t := by
  rcases hfe : fetch_entry e doi with ⟨effs, out⟩
  cases out with
  | ok pdf =>
    by_cases hm : e.mkdirOk = true <;>
      simp [process_entry, hdoi, hcache, hfe, hm]
  | netErr =>
    exact ⟨[Eff.warn e.title], by simp [process_entry, hdoi, hcache, hfe]⟩
  | parseErr =>
    exact ⟨[Eff.warn e.title], by simp [process_entry, hdoi, hcache, hfe]⟩
  | panicked => exact ⟨[], by simp [process_entry, hdoi, hcache, hfe]⟩

/-- C5: the retrieval router sends an identifier to the direct-fetch
(arXiv) adapter exactly when it contains the substring `/ARXIV.` — the
iteration's first effect is then the arXiv GET for the suffix after that
marker — and any other identifier to the scrape-fallback (sci-hub)
adapter, whose first effect is the sci-hub landing GET for the full
identifier. -/
theorem pdfs_router (e : Entry) (doi : List Char)
    (hdoi : e.doi = some doi) (hcache : e.cached = false) :
    (containsSub doi arxivPat = true →
      ∃ id, (process_entry e).1.head? = some (Eff.arxivGet id)) ∧
    (containsSub doi arxivPat = false →
      (process_entry e).1.head? =
        some (Eff.scihubGetLanding (scihubOrigin ++ '/' :: doi))) := by
  obtain ⟨t, ht⟩ := process_entry_effs e doi hdoi hcache
  constructor
  · intro h
    have harx : is_arxiv doi = true := h
    obtain ⟨q, hq⟩ := splitOnceSub_isSome h
    refine ⟨q.2, ?_⟩
    have hfe : (fetch_entry e doi).1 = [Eff.arxivGet q.2] := by
      cases hr : e.arxivResp <;>
        simp [fetch_entry, harx, arxiv_fetch_pdf, hq, hr]
    rw [ht, hfe]
    simp
  · intro h
    have harx : is_arxiv doi = false := h
    have hfe : fetch_entry e doi =
        scihub_fetch_pdf e.scihubLanding e.scihubPdfResp doi := by
      simp [fetch_entry, harx]
    rw [ht, hfe]
    rw [List.head?_append_of_ne_nil]
    · exact scihub_fetch_head e.scihubLanding e.scihubPdfResp doi
    · intro hnil
      have := scihub_fetch_head e.scihubLanding e.scihubPdfResp doi
      rw [hnil] at this
      simp at this

/-- Witness for `pdfs_router`: a concrete arXiv identifier and a concrete
plain DOI. -/
theorem pdfs_router_witness :
    ((containsSub "10.48550/ARXIV.2207.0282".toList arxivPat = true →
      ∃ id,
        (process_entry
          ⟨some "10.48550/ARXIV.2207.0282".toList, "T".toList, false,
            some [], none, none, true, true⟩).1.head? =
          some (Eff.arxivGet id)) ∧
    (containsSub "10.48550/ARXIV.2207.0282".toList arxivPat = false →
      (process_entry
          ⟨some "10.48550/ARXIV.2207.0282".toList, "T".toList, false,
            some [], none, none, true, true⟩).1.head? =
        some (Eff.scihubGetLanding
          (scihubOrigin ++ '/' :: "10.48550/ARXIV.2207.0282".toList)))) ∧
    ((containsSub "10.1109/5.771073".toList arxivPat = true →
      ∃ id,
        (process_entry
          ⟨some "10.1109/5.771073".toList, "U".toList, false, none, none,
            none, true, true⟩).1.head? =
          some (Eff.arxivGet id)) ∧
    (containsSub "10.1109/5.771073".toList arxivPat = false →
      (process_entry
          ⟨some "10.1109/5.771073".toList, "U".toList, false, none, none,
            none, true, true⟩).1.head? =
        some (Eff.scihubGetLanding
          (scihubOrigin ++ '/' :: "10.1109/5.771073".toList)))) :=
  ⟨pdfs_router
      ⟨some "10.48550/ARXIV.2207.0282".toList, "T".toList, false, some [],
        none, none, true, true⟩
      "10.48550/ARXIV.2207.0282".toList rfl rfl,
    pdfs_router
      ⟨some "10.1109/5.771073".toList, "U".toList, false, none, none, none,
        true, true⟩
      "10.1109/5.771073".toList rfl rfl⟩

/-! ## Repository locator -/

/-- The locator returns the store of the nearest ancestor (dropping `k`
innermost components) whose `.zime` entry exists, provided no nearer
directory has one. -/
theorem determine_from_found (marker : List String → Bool) (p : List String)
    (k : Nat) (hk : k ≤ p.length) (hm : marker (p.drop k) = true)
    (hnear : ∀ j, j < k → marker (p.drop j) = false) :
    (determine_from marker p).2 = Loc.store (zimeDir (p.drop k)) := by
  induction p generalizing k with
  | nil =>
    have hk0 : k = 0 := Nat.le_zero.mp hk
    subst hk0
    simp only [List.drop_nil] at hm
    simp [determine_from, hm]
  | cons c parent ih =>
    cases k with
    | zero =>
      simp only [List.drop_zero] at hm
      simp [determine_from, hm]
    | succ k' =>
      have hp : marker (c :: parent) = false := by
        simpa using hnear 0 (Nat.succ_pos k')
      have hk' : k' ≤ parent.length := by simpa using hk
      have hm' : marker (parent.drop k') = true := by simpa using hm
      have hnear' : ∀ j, j < k' → marker (parent.drop j) = false := by
        intro j hj
        simpa using hnear (j + 1) (by omega)
      simp only [determine_from, hp, Bool.false_eq_true, if_false,
        List.drop_succ_cons]
      exact ih k' hk' hm' hnear'

/-- When no directory from the start up to and including the root has a
`.zime` entry, the locator falls back to the global default. -/
theorem determine_from_fallback (marker : List String → Bool)
    (p : List String) (h : ∀ j, j ≤ p.length → marker (p.drop j) = false) :
    (determine_from marker p).2 = Loc.global := by
  induction p with
  | nil =>
    have h0 : marker [] = false := by simpa using h 0 (by simp)
    simp [determine_from, h0]
  | cons c parent ih =>
    have hp : marker (c :: parent) = false := by simpa using h 0 (by simp)
    have h' : ∀ j, j ≤ parent.length → marker (parent.drop j) = false := by
      intro j hj
      simpa using h (j + 1) (by simpa using hj)
    simp only [determine_from, hp, Bool.false_eq_true, if_false]
    exact ih h'

/-- Every directory the locator tests is the starting directory or one of
its ancestors. -/
theorem determine_from_trace (marker : List String → Bool) (p : List String) :
    ∀ q ∈ (determine_from marker p).1, ∃ j, j ≤ p.length ∧ q = p.drop j := by
  induction p with
  | nil =>
    intro q hq
    simp only [determine_from, List.mem_singleton] at hq
    exact ⟨0, by simp, by simp [hq]⟩
  | cons c parent ih =>
    intro q hq
    by_cases hp : marker (c :: parent) = true
    · simp only [determine_from, hp, if_true, List.mem_singleton] at hq
      exact ⟨0, by simp, by simp [hq]⟩
    · simp only [determine_from, hp, Bool.false_eq_true, if_false,
        List.mem_cons] at hq
      rcases hq with rfl | hq
      · exact ⟨0, by simp, by simp⟩
      · obtain ⟨j, hj, rfl⟩ := ih q hq
        exact ⟨j + 1, by simpa using hj, by simp⟩

/-- C7: the locator tests the starting directory and then each of its
ancestors in turn (every directory tested is an ancestor, and nothing is
created — the walk only queries existence); it returns the store of the
first (nearest) directory whose `.zime` entry exists — in particular,
starting three levels below a marked directory yields exactly that
ancestor's store — and only when no directory up to and including the
root matches does it fall back to the process-wide default. -/
theorem determine_from_spec :
    (∀ (marker : List String → Bool) (p : List String) (k : Nat),
      k ≤ p.length → marker (p.drop k) = true →
      (∀ j, j < k → marker (p.drop j) = false) →
      (determine_from marker p).2 = Loc.store (zimeDir (p.drop k))) ∧
    (∀ (marker : List String → Bool) (a : List String) (d1 d2 d3 : String),
      marker a = true → marker (d1 :: a) = false →
      marker (d2 :: d1 :: a) = false → marker (d3 :: d2 :: d1 :: a) = false →
      (determine_from marker (d3 :: d2 :: d1 :: a)).2 =
        Loc.store (zimeDir a)) ∧
    (∀ (marker : List String → Bool) (p : List String),
      (∀ j, j ≤ p.length → marker (p.drop j) = false) →
      (determine_from marker p).2 = Loc.global) ∧
    (∀ (marker : List String → Bool) (p : List String),
      ∀ q ∈ (determine_from marker p).1, ∃ j, j ≤ p.length ∧ q = p.drop j) := by
  refine ⟨determine_from_found, ?_, determine_from_fallback,
    determine_from_trace⟩
  intro marker a d1 d2 d3 ha h1 h2 h3
  have h := determine_from_found marker (d3 :: d2 :: d1 :: a) 3
    (by simp) (by simpa using ha) ?_
  · simpa using h
  · intro j hj
    interval_cases j
    · simpa using h3
    · simpa using h2
    · simpa using h1

/-- Witness for `determine_from_spec`: starting three levels below the
root with only the root marked yields the root's `.zime` store. -/
theorem determine_from_spec_witness :
    (determine_from (fun q => q.isEmpty) ["c", "b", "a"]).2 =
      Loc.store (zimeDir []) :=
  determine_from_spec.2.1 (fun q => q.isEmpty) [] "a" "b" "c"
    (by decide) (by decide) (by decide) (by decide)

end Zime
